import Mathlib

/-!
Verification of the proc36 puzzle solver core (board rotation, pair
detection, candidate-move generation, limits planning, answer
serialisation) against its natural-language specification.

The C++ sources under `src/` are embedded shallowly:
  * `std::size_t` values are modelled as `Nat` (the quantities involved —
    board sides up to 24, indices below `N²` — never approach `2⁶⁴`, and
    the one place where unsigned wrap-around matters, the prefix-sum
    difference in the move generator, is modelled exactly over `Int`);
  * `int` cell labels are modelled as `Int`;
  * fallible operations (`throw`) are modelled with `Except String`.
-/

namespace Proc36

/-- A rotation descriptor, `struct Operation` from `lib/operation.hpp`:
top-left corner `(x, y)` and side length `size`. -/
structure Operation where
  x : Nat
  y : Nat
  size : Nat
deriving DecidableEq

/-- `Operation::is_valid` from `lib/operation.hpp`: the rotation must have
side at least 2, fit the board side, and its footprint must stay on-grid.
`size > field_size` and `x + size > field_size` are written with flipped
`<`. -/
def Operation.is_valid (op : Operation) (field_size : Nat) : Bool :=
  if op.size < 2 || field_size < op.size then
    false
  else if field_size < op.x + op.size || field_size < op.y + op.size then
    false
  else
    true

theorem Operation.is_valid_iff (op : Operation) (n : Nat) :
    op.is_valid n = true ↔
      2 ≤ op.size ∧ op.size ≤ n ∧ op.x + op.size ≤ n ∧ op.y + op.size ≤ n := by
  simp only [Operation.is_valid]
  split
  · rename_i h
    simp only [Bool.or_eq_true, decide_eq_true_eq] at h
    constructor
    · intro hf
      exact absurd hf (by simp)
    · intro hc
      omega
  · rename_i h
    simp only [Bool.or_eq_true, decide_eq_true_eq, not_or, not_lt] at h
    split
    · rename_i h2
      simp only [Bool.or_eq_true, decide_eq_true_eq] at h2
      constructor
      · intro hf
        exact absurd hf (by simp)
      · intro hc
        omega
    · rename_i h2
      simp only [Bool.or_eq_true, decide_eq_true_eq, not_or, not_lt] at h2
      constructor
      · intro _
        omega
      · intro _
        rfl

/-- The board, `class Field` from `lib/field.hpp`: a side length and a
row-major cell array (`cells_[y * size_ + x]`). The C++ constructor
guarantees `cells_.size() == size_ * size_`; theorems carry that
well-formedness as a hypothesis where they need it. -/
structure Field where
  size : Nat
  cells : List Int
deriving DecidableEq

/-- `Field::cell_count`. -/
def Field.cell_count (f : Field) : Nat :=
  f.cells.length

/-- `Field::at` (row-major read `cells_[y * size_ + x]`). The C++ version
throws on out-of-bounds positions; every use below is in-bounds, and the
default value `0` is never observed there. -/
def Field.at (f : Field) (x y : Nat) : Int :=
  f.cells.getD (y * f.size + x) 0

/-- `Field::is_valid_operation`. -/
def Field.is_valid_operation (f : Field) (op : Operation) : Bool :=
  op.is_valid f.size

/-- The cell array produced by the rotation loop of `Field::apply`
(`lib/field.cpp`): the C++ code snapshots the `k×k` footprint into a fresh
buffer `original` and then writes
`set(op.x + dx, op.y + dy, original[(k - 1 - dx) * k + dy])`, i.e. the new
cell at footprint offset `(dx, dy)` reads the old cell at offset
`(dy, k - 1 - dx)`; cells outside the footprint are not written. -/
def Field.rotate_cells (f : Field) (op : Operation) : List Int :=
  (List.range (f.size * f.size)).map (fun idx =>
    let x := idx % f.size
    let y := idx / f.size
    if op.x ≤ x ∧ x < op.x + op.size ∧ op.y ≤ y ∧ y < op.y + op.size then
      f.at (op.x + (y - op.y)) (op.y + (op.size - 1 - (x - op.x)))
    else
      f.cells.getD idx 0)

/-- `Field::apply` from `lib/field.cpp`: throw `"Invalid rotation
operation"` on an invalid op (before touching any cell), otherwise rotate
the footprint in place. -/
def Field.apply (f : Field) (op : Operation) : Except String Field :=
  if f.is_valid_operation op = false then
    Except.error "Invalid rotation operation"
  else
    Except.ok { f with cells := f.rotate_cells op }

/-- The board a caller observes after `Field::apply`, whether or not the
call threw: on the throwing path the C++ method raises before its first
write, leaving the object unchanged. -/
def Field.applyOrKeep (f : Field) (op : Operation) : Field :=
  match f.apply op with
  | Except.ok g => g
  | Except.error _ => f

theorem getD_map_range (n i : Nat) (g : Nat → Int) (d : Int) (h : i < n) :
    (((List.range n).map g).getD i d) = g i := by
  simp [List.getD_eq_getElem?_getD, List.getElem?_map, List.getElem?_range, h]

theorem Field.at_rotate (f : Field) (op : Operation) (x y : Nat)
    (hx : x < f.size) (hy : y < f.size) :
    (Field.mk f.size (f.rotate_cells op)).at x y =
      if op.x ≤ x ∧ x < op.x + op.size ∧ op.y ≤ y ∧ y < op.y + op.size then
        f.at (op.x + (y - op.y)) (op.y + (op.size - 1 - (x - op.x)))
      else
        f.at x y := by
  have hs : 0 < f.size := by omega
  have hidx : y * f.size + x < f.size * f.size := by
    calc y * f.size + x < y * f.size + f.size := by omega
    _ = (y + 1) * f.size := by ring
    _ ≤ f.size * f.size := Nat.mul_le_mul_right _ (by omega)
  have hmod : (y * f.size + x) % f.size = x := by
    rw [Nat.mul_comm y f.size, Nat.mul_add_mod, Nat.mod_eq_of_lt hx]
  have hdiv : (y * f.size + x) / f.size = y := by
    rw [Nat.mul_comm y f.size, Nat.mul_add_div hs, Nat.div_eq_of_lt hx, Nat.add_zero]
  show (f.rotate_cells op).getD (y * f.size + x) 0 = _
  rw [Field.rotate_cells, getD_map_range _ _ _ _ hidx]
  simp only [hmod, hdiv]
  rfl

/-- The board after a successful `Field::apply` (same side, rotated
cells). -/
def Field.rotateField (f : Field) (op : Operation) : Field :=
  Field.mk f.size (f.rotate_cells op)

theorem Field.apply_ok (f : Field) (op : Operation)
    (hv : op.is_valid f.size = true) :
    f.apply op = Except.ok (f.rotateField op) := by
  cases f
  simp [Field.apply, Field.is_valid_operation, Field.rotateField, hv]

theorem Field.at_rotateField_offset (f : Field) (op : Operation) (dx dy : Nat)
    (hv : op.is_valid f.size = true) (hdx : dx < op.size) (hdy : dy < op.size) :
    (f.rotateField op).at (op.x + dx) (op.y + dy)
      = f.at (op.x + dy) (op.y + (op.size - 1 - dx)) := by
  obtain ⟨h2, hkn, hxk, hyk⟩ := (Operation.is_valid_iff op f.size).mp hv
  rw [Field.rotateField,
    Field.at_rotate f op (op.x + dx) (op.y + dy) (by omega) (by omega),
    if_pos (by omega)]
  have e1 : op.x + (op.y + dy - op.y) = op.x + dy := by omega
  have e2 : op.y + (op.size - 1 - (op.x + dx - op.x))
      = op.y + (op.size - 1 - dx) := by omega
  rw [e1, e2]

theorem Field.at_rotateField_out (f : Field) (op : Operation) (x y : Nat)
    (hx : x < f.size) (hy : y < f.size)
    (hout : ¬(op.x ≤ x ∧ x < op.x + op.size ∧ op.y ≤ y ∧ y < op.y + op.size)) :
    (f.rotateField op).at x y = f.at x y := by
  rw [Field.rotateField, Field.at_rotate f op x y hx hy, if_neg hout]

theorem Field.rotateField_size (f : Field) (op : Operation) :
    (f.rotateField op).size = f.size := rfl

theorem Field.rotateField_cells_length (f : Field) (op : Operation) :
    (f.rotateField op).cells.length = f.size * f.size := by
  simp [Field.rotateField, Field.rotate_cells]

/-- Claim C1: `Field::apply` on a valid operation `(x, y, k)` replaces the
`k×k` sub-square by its 90° clockwise rotation — the new cell at footprint
offset `(dx, dy)` holds the old cell at `(x + dy, y + k − 1 − dx)` — and in
particular `apply((0,0,3))` on `[[1,2,3],[4,5,6],[7,8,9]]` yields
`[[7,4,1],[8,5,2],[9,6,3]]`. -/
theorem Field.apply_rotates_clockwise :
    (∀ (f : Field) (op : Operation) (g : Field) (dx dy : Nat),
        f.apply op = Except.ok g → dx < op.size → dy < op.size →
        g.at (op.x + dx) (op.y + dy)
          = f.at (op.x + dy) (op.y + (op.size - 1 - dx))) ∧
    (Field.mk 3 [1,2,3,4,5,6,7,8,9]).apply ⟨0,0,3⟩
      = Except.ok (Field.mk 3 [7,4,1,8,5,2,9,6,3]) := by
  constructor
  · intro f op g dx dy hap hdx hdy
    have hv : op.is_valid f.size = true := by
      cases h : op.is_valid f.size
      · rw [Field.apply] at hap
        have hvo : f.is_valid_operation op = false := h
        rw [hvo] at hap
        exact absurd hap (by simp)
      · rfl
    rw [Field.apply_ok f op hv] at hap
    have hg : g = f.rotateField op := by
      cases hap
      rfl
    subst hg
    exact Field.at_rotateField_offset f op dx dy hv hdx hdy
  · rfl

theorem Field.apply_rotates_clockwise_witness :
    ((Field.mk 3 [1,2,3,4,5,6,7,8,9]).apply ⟨0,0,3⟩
        = Except.ok (Field.mk 3 [7,4,1,8,5,2,9,6,3]) ∧ 0 < 3 ∧ 0 < 3) ∧
    (Field.mk 3 [7,4,1,8,5,2,9,6,3]).at 0 0
      = (Field.mk 3 [1,2,3,4,5,6,7,8,9]).at 0 2 :=
  ⟨⟨by rfl, by decide, by decide⟩,
    Field.apply_rotates_clockwise.1 (Field.mk 3 [1,2,3,4,5,6,7,8,9]) ⟨0,0,3⟩
      (Field.mk 3 [7,4,1,8,5,2,9,6,3]) 0 0 (by rfl) (by decide) (by decide)⟩

/-- Claim C8: `Field::apply` raises the invalid-operation error exactly when
`k < 2`, `k > N`, or the footprint leaves the grid, and on that path the
board is left unchanged (the throw precedes the first write). -/
theorem Field.apply_error_iff :
    ∀ (f : Field) (op : Operation),
      ((f.apply op = Except.error "Invalid rotation operation") ↔
        (op.size < 2 ∨ f.size < op.size ∨ f.size < op.x + op.size ∨
          f.size < op.y + op.size)) ∧
      ((f.apply op = Except.error "Invalid rotation operation") →
        f.applyOrKeep op = f) := by
  intro f op
  cases hv : op.is_valid f.size
  · have hrange : op.size < 2 ∨ f.size < op.size ∨ f.size < op.x + op.size ∨
        f.size < op.y + op.size := by
      have hiff := Operation.is_valid_iff op f.size
      rw [hv] at hiff
      by_contra hc
      push_neg at hc
      exact absurd (hiff.mpr (by omega)) (by simp)
    constructor
    · simp only [Field.apply, Field.is_valid_operation, hv, if_pos]
      exact ⟨fun _ => hrange, fun _ => trivial⟩
    · intro _
      simp [Field.applyOrKeep, Field.apply, Field.is_valid_operation, hv]
  · obtain ⟨h2, hkn, hxk, hyk⟩ := (Operation.is_valid_iff op f.size).mp hv
    constructor
    · simp only [Field.apply, Field.is_valid_operation, hv]
      constructor
      · intro hc
        exact absurd hc (by simp)
      · intro hc
        omega
    · simp only [Field.apply, Field.is_valid_operation, hv]
      intro hc
      exact absurd hc (by simp)

theorem Field.apply_error_iff_witness :
    ((5:Nat) < 2 ∨ (1:Nat) < 5 ∨ (1:Nat) < 0 + 5 ∨ (1:Nat) < 0 + 5) ∧
    (Field.mk 1 [0]).apply ⟨0,0,5⟩ = Except.error "Invalid rotation operation" :=
  ⟨by decide, ((Field.apply_error_iff (Field.mk 1 [0]) ⟨0,0,5⟩).1).mpr (by decide)⟩

/-- Claim C9: `Field::apply` on a valid operation leaves every cell outside
the rotated footprint `[x, x+k) × [y, y+k)` unchanged. -/
theorem Field.apply_frame :
    ∀ (f : Field) (op : Operation) (g : Field) (x y : Nat),
      f.apply op = Except.ok g → x < f.size → y < f.size →
      ¬(op.x ≤ x ∧ x < op.x + op.size ∧ op.y ≤ y ∧ y < op.y + op.size) →
      g.at x y = f.at x y := by
  intro f op g x y hap hx hy hout
  rw [Field.apply] at hap
  split at hap
  · exact absurd hap (by simp)
  · have hg : g = Field.mk f.size (f.rotate_cells op) := by
      cases hap
      rfl
    subst hg
    rw [Field.at_rotate f op x y hx hy, if_neg hout]

theorem Field.apply_frame_witness :
    ((Field.mk 3 [1,2,3,4,5,6,7,8,9]).apply ⟨0,0,2⟩
        = Except.ok (Field.mk 3 [4,1,3,5,2,6,7,8,9]) ∧ 2 < 3 ∧ 2 < 3 ∧
      ¬((0:Nat) ≤ 2 ∧ 2 < 0 + 2 ∧ (0:Nat) ≤ 2 ∧ 2 < 0 + 2)) ∧
    (Field.mk 3 [4,1,3,5,2,6,7,8,9]).at 2 2
      = (Field.mk 3 [1,2,3,4,5,6,7,8,9]).at 2 2 :=
  ⟨⟨by rfl, by decide, by decide, by decide⟩,
    Field.apply_frame (Field.mk 3 [1,2,3,4,5,6,7,8,9]) ⟨0,0,2⟩
      (Field.mk 3 [4,1,3,5,2,6,7,8,9]) 2 2 (by rfl) (by decide) (by decide) (by decide)⟩

theorem Field.eq_of_parts {a b : Field} (h1 : a.size = b.size)
    (h2 : a.cells = b.cells) : a = b := by
  cases a
  cases b
  cases h1
  cases h2
  rfl

theorem Field.getElem_cells (f : Field) (i : Nat) (h : i < f.cells.length) :
    f.cells[i] = f.at (i % f.size) (i / f.size) := by
  have hidx : (i / f.size) * f.size + i % f.size = i := by
    rw [Nat.mul_comm]
    exact Nat.div_add_mod i f.size
  show f.cells[i] = f.cells.getD ((i / f.size) * f.size + i % f.size) 0
  rw [hidx, List.getD_eq_getElem _ _ h]

theorem Field.rotateField_four_at (f : Field) (op : Operation)
    (hv : op.is_valid f.size = true) (x y : Nat)
    (hx : x < f.size) (hy : y < f.size) :
    ((((f.rotateField op).rotateField op).rotateField op).rotateField op).at x y
      = f.at x y := by
  obtain ⟨h2, hkn, hxk, hyk⟩ := (Operation.is_valid_iff op f.size).mp hv
  have hv1 : op.is_valid (f.rotateField op).size = true := hv
  have hv2 : op.is_valid ((f.rotateField op).rotateField op).size = true := hv
  have hv3 :
      op.is_valid (((f.rotateField op).rotateField op).rotateField op).size
        = true := hv
  by_cases hmem : op.x ≤ x ∧ x < op.x + op.size ∧ op.y ≤ y ∧ y < op.y + op.size
  · obtain ⟨hm1, hm2, hm3, hm4⟩ := hmem
    have hax : x = op.x + (x - op.x) := by omega
    have hay : y = op.y + (y - op.y) := by omega
    rw [hax, hay]
    have ha : x - op.x < op.size := by omega
    have hb : y - op.y < op.size := by omega
    rw [Field.at_rotateField_offset _ op _ _ hv3 ha hb]
    rw [Field.at_rotateField_offset _ op _ _ hv2 hb (by omega)]
    have e1 : op.size - 1 - (op.size - 1 - (x - op.x)) = x - op.x := by omega
    rw [Field.at_rotateField_offset _ op _ _ hv1 (by omega) (by omega), e1]
    rw [Field.at_rotateField_offset f op _ _ hv (by omega) ha]
    have e2 : op.size - 1 - (op.size - 1 - (y - op.y)) = y - op.y := by omega
    rw [e2]
  · rw [Field.at_rotateField_out (((f.rotateField op).rotateField op).rotateField op)
        op x y hx hy hmem,
      Field.at_rotateField_out ((f.rotateField op).rotateField op) op x y hx hy hmem,
      Field.at_rotateField_out (f.rotateField op) op x y hx hy hmem,
      Field.at_rotateField_out f op x y hx hy hmem]

/-- Claim C5: applying a valid operation four times in succession restores
the board exactly (four 90° rotations are the identity). -/
theorem Field.apply_four_times_id (f : Field) (op : Operation)
    (hwf : f.cells.length = f.size * f.size)
    (hv : op.is_valid f.size = true) :
    (((f.apply op).bind (fun g => g.apply op)).bind (fun g => g.apply op)).bind
      (fun g => g.apply op) = Except.ok f := by
  obtain ⟨h2, hkn, hxk, hyk⟩ := (Operation.is_valid_iff op f.size).mp hv
  have hs : 0 < f.size := by omega
  have hv1 : op.is_valid (f.rotateField op).size = true := hv
  have hv2 : op.is_valid ((f.rotateField op).rotateField op).size = true := hv
  have hv3 :
      op.is_valid (((f.rotateField op).rotateField op).rotateField op).size
        = true := hv
  have hg4 :
      ((((f.rotateField op).rotateField op).rotateField op).rotateField op) = f := by
    apply Field.eq_of_parts
    · rfl
    · apply List.ext_getElem
      · simp [Field.rotateField_cells_length, Field.rotateField_size, hwf]
      · intro i h1 h2
        have hh2 : i < f.size * f.size := by rw [← hwf]; exact h2
        rw [Field.getElem_cells _ i h1, Field.getElem_cells f i h2]
        exact Field.rotateField_four_at f op hv _ _
          (Nat.mod_lt _ hs) ((Nat.div_lt_iff_lt_mul hs).mpr hh2)
  rw [Field.apply_ok f op hv]
  simp only [Except.bind]
  rw [Field.apply_ok (f.rotateField op) op hv1]
  simp only [Except.bind]
  rw [Field.apply_ok ((f.rotateField op).rotateField op) op hv2]
  simp only [Except.bind]
  rw [Field.apply_ok (((f.rotateField op).rotateField op).rotateField op) op hv3]
  rw [hg4]

theorem Field.apply_four_times_id_witness :
    ((Field.mk 2 [1,2,3,4]).cells.length = (Field.mk 2 [1,2,3,4]).size * (Field.mk 2 [1,2,3,4]).size ∧
      (Operation.mk 0 0 2).is_valid (Field.mk 2 [1,2,3,4]).size = true) ∧
    ((((Field.mk 2 [1,2,3,4]).apply ⟨0,0,2⟩).bind (fun g => g.apply ⟨0,0,2⟩)).bind
        (fun g => g.apply ⟨0,0,2⟩)).bind (fun g => g.apply ⟨0,0,2⟩)
      = Except.ok (Field.mk 2 [1,2,3,4]) :=
  ⟨⟨by decide, by decide⟩,
    Field.apply_four_times_id (Field.mk 2 [1,2,3,4]) ⟨0,0,2⟩ (by decide) (by decide)⟩

/-- `struct PairStatus` from `lib/field.hpp`: counts of matched and
unmatched pairs. -/
structure PairStatus where
  matched : Nat
  unmatched : Nat
deriving DecidableEq

/-- `struct PairMetrics` from `lib/field.hpp`: pair summary, distance
aggregates, and the row-major 0/1 unmatched mask. -/
structure PairMetrics where
  status : PairStatus
  total_unmatched_distance : Nat
  max_unmatched_distance : Nat
  unmatched_mask : List Nat
deriving DecidableEq

/-- The mutable state of the scan loop in `Field::evaluate_pair_metrics`:
the metrics being accumulated, plus the `first_indices` table (index of the
first sighting of each label, or `none` for the sentinel
`std::numeric_limits<std::size_t>::max()`). The C++ code also keeps
`first_positions`, but `first_positions[v]` always equals
`(first_indices[v] % size, first_indices[v] / size)` — both are written
together from the same `idx` — so only the index table is carried here. -/
structure PairScan where
  metrics : PairMetrics
  first_indices : List (Option Nat)
deriving DecidableEq

/-- The `ensure_capacity` lambda of `Field::evaluate_pair_metrics`: grow
the table to `value + 1` entries, filling new slots with the sentinel. -/
def ensure_capacity (l : List (Option Nat)) (value : Nat) : List (Option Nat) :=
  if l.length ≤ value then l ++ List.replicate (value + 1 - l.length) none else l

/-- One iteration of the scan loop of `Field::evaluate_pair_metrics`
(`lib/field.cpp`) on the cell at flat index `idx` holding `value`:
negative labels are skipped; a first sighting records `idx`; a later
sighting computes the Manhattan distance to the first sighting and bumps
`matched` (distance 1) or `unmatched` plus the distance aggregates and the
two mask bytes. -/
def pairStep (N : Nat) (st : PairScan) (idx : Nat) (value : Int) : PairScan :=
  if value < 0 then st
  else
    let uvalue := value.toNat
    let fi := ensure_capacity st.first_indices uvalue
    match fi.getD uvalue none with
    | none => { st with first_indices := fi.set uvalue (some idx) }
    | some first_index =>
      let fx := first_index % N
      let fy := first_index / N
      let x := idx % N
      let y := idx / N
      let distance := ((fx : Int) - (x : Int)).natAbs + ((fy : Int) - (y : Int)).natAbs
      if distance = 1 then
        { st with
          metrics := { st.metrics with
            status := { st.metrics.status with
              matched := st.metrics.status.matched + 1 } },
          first_indices := fi }
      else
        { st with
          metrics :=
            { status := { st.metrics.status with
                unmatched := st.metrics.status.unmatched + 1 },
              total_unmatched_distance := st.metrics.total_unmatched_distance + distance,
              max_unmatched_distance := max st.metrics.max_unmatched_distance distance,
              unmatched_mask := (st.metrics.unmatched_mask.set first_index 1).set idx 1 },
          first_indices := fi }

/-- The scan loop folded over a list of `(index, value)` pairs. -/
def scanFold (N : Nat) (st : PairScan) (l : List (Nat × Int)) : PairScan :=
  l.foldl (fun s p => pairStep N s p.1 p.2) st

/-- The initial scan state of `Field::evaluate_pair_metrics`: a zero mask
of `cells.size()` bytes and a sentinel table of `cells.size() / 2`
entries. -/
def initialScan (f : Field) : PairScan :=
  { metrics :=
      { status := { matched := 0, unmatched := 0 },
        total_unmatched_distance := 0,
        max_unmatched_distance := 0,
        unmatched_mask := List.replicate f.cells.length 0 },
    first_indices := List.replicate (f.cells.length / 2) none }

/-- `Field::evaluate_pair_metrics`: scan the cells in flat row-major index
order. -/
def Field.evaluate_pair_metrics (f : Field) : PairMetrics :=
  (scanFold f.size (initialScan f) f.cells.enum).metrics

/-- `Field::evaluate_pairs`: the summary part of the metrics. -/
def Field.evaluate_pairs (f : Field) : PairStatus :=
  f.evaluate_pair_metrics.status


/-- `Operation::to_string` from `lib/operation.hpp`: the one-line JSON form
`\x7b"x":X,"y":Y,"n":K\x7d`. -/
def Operation.to_string (op : Operation) : String :=
  "\x7b" ++ "\"x\":" ++ toString op.x ++
    ",\"y\":" ++ toString op.y ++
    ",\"n\":" ++ toString op.size ++ "\x7d"

/-- `Problem::serialize_answer` from `lib/problem.cpp`: the answer document
with one op per line at four-space indent, comma-separated, and a closing
newline before `]` only when the list is non-empty. -/
def Problem.serialize_answer (ops : List Operation) : String :=
  let body := ops.enum.foldl
    (fun acc p =>
      acc ++ (if p.1 ≠ 0 then "," else "") ++ "\n    " ++ p.2.to_string)
    ("\x7b\n  \"ops\": [")
  (body ++ (if ops.isEmpty then "" else "\n")) ++ "  ]\n\x7d"

/-- Claim C7: serialising an empty operation list yields the answer
document whose `ops` array holds no entry and no newline between its
brackets — the exact output is the literal below, in which the brackets
enclose only the two spaces of the closing indent (the newline before the
closing `]` is emitted only for non-empty lists). -/
theorem Problem.serialize_answer_empty :
    Problem.serialize_answer [] = "\x7b\n  \"ops\": [  ]\n\x7d" := by
  decide

/-- Modelled from the spec sentence "Labels outside [0, N²/2) are ignored
defensively": the pair scan run only over the cells whose label lies in
`[0, N²/2)`. This is the behaviour the claim asserts for
`Field::evaluate_pair_metrics`; the code itself is embedded in
`Field.evaluate_pair_metrics` above. -/
def specPairMetricsIgnoringOutOfRange (f : Field) : PairMetrics :=
  (scanFold f.size (initialScan f)
    (f.cells.enum.filter
      (fun p => decide (0 ≤ p.2) && decide (p.2.toNat < f.size * f.size / 2)))).metrics

/-- The pair scan run only over the cells with non-negative labels: what
`Field::evaluate_pair_metrics` actually ignores is exactly the negative
labels (`if (value < 0) continue`). -/
def pairMetricsIgnoringNegatives (f : Field) : PairMetrics :=
  (scanFold f.size (initialScan f)
    (f.cells.enum.filter (fun p => decide (0 ≤ p.2)))).metrics

theorem pairStep_neg (N : Nat) (st : PairScan) (idx : Nat) (v : Int)
    (hv : v < 0) : pairStep N st idx v = st := by
  simp only [pairStep]
  rw [if_pos hv]

theorem scanFold_filter (N : Nat) (q : Nat × Int → Bool)
    (hstep : ∀ (st : PairScan) (p : Nat × Int), q p = false →
      pairStep N st p.1 p.2 = st) :
    ∀ (l : List (Nat × Int)) (st : PairScan),
      scanFold N st (l.filter q) = scanFold N st l := by
  intro l
  induction l with
  | nil => intro st; rfl
  | cons p t ih =>
    intro st
    rw [List.filter_cons]
    cases hq : q p
    · simp only [Bool.false_eq_true, if_false]
      rw [show scanFold N st (p :: t) = scanFold N (pairStep N st p.1 p.2) t from rfl,
        hstep st p hq]
      exact ih st
    · simp only [if_true]
      rw [show scanFold N st (p :: t.filter q)
          = scanFold N (pairStep N st p.1 p.2) (t.filter q) from rfl]
      exact ih (pairStep N st p.1 p.2)

/-- Claim C3 counterexample: on the board `[[5,5],[0,0]]` of side 2 the
labels `5` lie outside `[0, N²/2) = [0, 2)`, yet the metrics differ from
the scan that ignores out-of-range labels (the code counts the adjacent
`5`s as a matched pair: `matched = 2`, not `1`). -/
theorem evaluate_pair_metrics_out_of_range_counterexample :
    (Field.mk 2 [5,5,0,0]).evaluate_pair_metrics
      ≠ specPairMetricsIgnoringOutOfRange (Field.mk 2 [5,5,0,0]) := by
  decide

/-- Claim C3 (amended): pair detection ignores exactly the cells with
negative labels — removing them from the scan changes nothing; non-negative
labels at or above `N²/2` are tracked like any other label (the
first-sighting tables grow on demand). -/
theorem evaluate_pair_metrics_ignores_negatives (f : Field) :
    f.evaluate_pair_metrics = pairMetricsIgnoringNegatives f := by
  rw [Field.evaluate_pair_metrics, pairMetricsIgnoringNegatives]
  rw [scanFold_filter f.size (fun p => decide (0 ≤ p.2))]
  intro st p hq
  apply pairStep_neg
  simpa using hq


/-- Number of non-sentinel entries in a first-sighting table. -/
def countSome (l : List (Option Nat)) : Nat :=
  l.countP (fun o => o.isSome)

theorem ensure_capacity_of_lt (l : List (Option Nat)) (v : Nat)
    (h : v < l.length) : ensure_capacity l v = l := by
  rw [ensure_capacity, if_neg (by omega)]

theorem getD_set_self (l : List (Option Nat)) (i : Nat) (x : Option Nat)
    (h : i < l.length) : (l.set i x).getD i none = x := by
  induction l generalizing i with
  | nil => simp at h
  | cons a t ih =>
    cases i with
    | zero => rfl
    | succ j =>
      simp only [List.set_cons_succ, List.getD_cons_succ]
      exact ih j (by simpa using h)

theorem getD_set_other (l : List (Option Nat)) (i j : Nat) (x : Option Nat)
    (h : i ≠ j) : (l.set i x).getD j none = l.getD j none := by
  induction l generalizing i j with
  | nil => rfl
  | cons a t ih =>
    cases i with
    | zero =>
      cases j with
      | zero => exact absurd rfl h
      | succ k => rfl
    | succ i2 =>
      cases j with
      | zero => rfl
      | succ k =>
        simp only [List.set_cons_succ, List.getD_cons_succ]
        exact ih i2 k (by omega)

theorem getD_replicate_none (n i : Nat) :
    (List.replicate n (none : Option Nat)).getD i none = none := by
  induction n generalizing i with
  | zero => rfl
  | succ m ih =>
    cases i with
    | zero => rfl
    | succ j =>
      simp only [List.replicate_succ, List.getD_cons_succ]
      exact ih j

theorem enumFrom_any_snd (q : Int → Bool) : ∀ (n : Nat) (l : List Int),
    (l.enumFrom n).any (fun p => q p.2) = l.any q := by
  intro n l
  induction l generalizing n with
  | nil => rfl
  | cons c t ih => simp [List.enumFrom, List.any_cons, ih]

theorem enum_any_snd (q : Int → Bool) (l : List Int) :
    l.enum.any (fun p => q p.2) = l.any q :=
  enumFrom_any_snd q 0 l

theorem countSome_set_some (l : List (Option Nat)) (i : Nat) (x : Nat)
    (h : i < l.length) (hn : l.getD i none = none) :
    countSome (l.set i (some x)) = countSome l + 1 := by
  induction l generalizing i with
  | nil => simp at h
  | cons a t ih =>
    cases i with
    | zero =>
      have ha : a = none := hn
      subst ha
      simp [countSome, List.countP_cons]
    | succ j =>
      have hj : j < t.length := by simpa using h
      have hnj : t.getD j none = none := hn
      have hihj := ih j hj hnj
      show countSome (a :: t.set j (some x)) = countSome (a :: t) + 1
      rw [countSome, List.countP_cons, countSome, List.countP_cons]
      rw [countSome, countSome] at hihj
      omega

theorem pairStep_inv (N : Nat) (st : PairScan) (idx : Nat) (v : Int)
    (hv0 : 0 ≤ v) (hvr : v.toNat < st.first_indices.length) :
    (pairStep N st idx v).first_indices.length = st.first_indices.length ∧
    (pairStep N st idx v).metrics.status.matched
        + (pairStep N st idx v).metrics.status.unmatched
        + countSome (pairStep N st idx v).first_indices
      = st.metrics.status.matched + st.metrics.status.unmatched
          + countSome st.first_indices + 1 ∧
    ∀ w : Nat, ((pairStep N st idx v).first_indices.getD w none).isSome
      = ((st.first_indices.getD w none).isSome || decide (v = (w : Int))) := by
  have hnlt : ¬ v < 0 := by omega
  simp only [pairStep, if_neg hnlt, ensure_capacity_of_lt _ _ hvr]
  split
  · rename_i hfi
    refine ⟨by simp [List.length_set], ?_, ?_⟩
    · show st.metrics.status.matched + st.metrics.status.unmatched
          + countSome (st.first_indices.set v.toNat (some idx))
        = st.metrics.status.matched + st.metrics.status.unmatched
            + countSome st.first_indices + 1
      rw [countSome_set_some _ _ _ hvr hfi]
      omega
    · intro w
      by_cases hw : v.toNat = w
      · subst hw
        show ((st.first_indices.set v.toNat (some idx)).getD v.toNat none).isSome = _
        rw [getD_set_self _ _ _ hvr, hfi]
        simp [Int.toNat_of_nonneg hv0]
      · show ((st.first_indices.set v.toNat (some idx)).getD w none).isSome = _
        rw [getD_set_other _ _ _ _ hw]
        have hne : ¬ v = (w : Int) := by omega
        simp [hne]
  · rename_i j hfi
    have hgw : ∀ w : Nat, (st.first_indices.getD w none).isSome
        = ((st.first_indices.getD w none).isSome || decide (v = (w : Int))) := by
      intro w
      by_cases hw : v = (w : Int)
      · have hww : w = v.toNat := by omega
        subst hww
        rw [hfi]
        simp
      · simp [hw]
    split
    · refine ⟨rfl, ?_, hgw⟩
      show st.metrics.status.matched + 1 + st.metrics.status.unmatched
          + countSome st.first_indices
        = st.metrics.status.matched + st.metrics.status.unmatched
            + countSome st.first_indices + 1
      omega
    · refine ⟨rfl, ?_, hgw⟩
      show st.metrics.status.matched + (st.metrics.status.unmatched + 1)
          + countSome st.first_indices
        = st.metrics.status.matched + st.metrics.status.unmatched
            + countSome st.first_indices + 1
      omega

theorem scanFold_inv (N : Nat) :
    ∀ (l : List (Nat × Int)) (st : PairScan) (half : Nat),
      st.first_indices.length = half →
      (∀ p ∈ l, 0 ≤ p.2 ∧ p.2.toNat < half) →
      (scanFold N st l).first_indices.length = half ∧
      (scanFold N st l).metrics.status.matched
          + (scanFold N st l).metrics.status.unmatched
          + countSome (scanFold N st l).first_indices
        = st.metrics.status.matched + st.metrics.status.unmatched
            + countSome st.first_indices + l.length ∧
      ∀ w : Nat, ((scanFold N st l).first_indices.getD w none).isSome
        = ((st.first_indices.getD w none).isSome
            || l.any (fun p => decide (p.2 = (w : Int)))) := by
  intro l
  induction l with
  | nil =>
    intro st half hlen _
    exact ⟨hlen, by simp [scanFold], by simp [scanFold]⟩
  | cons p t ih =>
    intro st half hlen hvals
    have hp := hvals p (by simp)
    obtain ⟨hs1, hs2, hs3⟩ := pairStep_inv N st p.1 p.2 hp.1 (by omega)
    have hstep : scanFold N st (p :: t) = scanFold N (pairStep N st p.1 p.2) t := rfl
    obtain ⟨ih1, ih2, ih3⟩ := ih (pairStep N st p.1 p.2) half (by omega)
      (fun q hq => hvals q (by simp [hq]))
    refine ⟨by rw [hstep]; exact ih1, ?_, ?_⟩
    · rw [hstep, ih2]
      simp only [List.length_cons]
      omega
    · intro w
      rw [hstep, ih3 w, hs3 w, List.any_cons]
      cases (st.first_indices.getD w none).isSome <;>
        cases decide (p.2 = (w : Int)) <;>
        cases t.any (fun q => decide (q.2 = (w : Int))) <;> simp

theorem length_eq_sum_countP (half : Nat) :
    ∀ (l : List Int), (∀ c ∈ l, 0 ≤ c ∧ c.toNat < half) →
      l.length = ∑ v in Finset.range half,
        l.countP (fun c => decide (c = (v : Int))) := by
  intro l
  induction l with
  | nil => simp
  | cons c t ih =>
    intro hall
    have hc := hall c (by simp)
    have hone : (∑ v in Finset.range half,
        (if decide (c = (v : Int)) = true then 1 else 0)) = 1 := by
      have hcongr : ∀ v ∈ Finset.range half,
          (if decide (c = (v : Int)) = true then 1 else 0)
            = (if v = c.toNat then (fun _ : Nat => 1) v else 0) := by
        intro v _
        by_cases hv : v = c.toNat
        · subst hv
          simp [Int.toNat_of_nonneg hc.1]
        · have hne : ¬ c = (v : Int) := by omega
          simp [hne, hv]
      rw [Finset.sum_congr rfl hcongr]
      rw [Finset.sum_ite_eq' (Finset.range half) c.toNat]
      simp [Finset.mem_range.mpr hc.2]
    calc (c :: t).length = t.length + 1 := by simp
    _ = (∑ v in Finset.range half, t.countP (fun x => decide (x = (v : Int)))) + 1 := by
        rw [ih (fun x hx => hall x (by simp [hx]))]
    _ = ∑ v in Finset.range half, (c :: t).countP (fun x => decide (x = (v : Int))) := by
        simp only [List.countP_cons]
        rw [Finset.sum_add_distrib, hone]

/-- Claim C6: on a well-formed board of side `N` (cells array of length
`N²`, every label in `[0, N²/2)` and each such label occurring exactly
twice), `evaluate_pairs` satisfies `matched + unmatched = N²/2`. -/
theorem evaluate_pairs_matched_add_unmatched (f : Field)
    (hwf : f.cells.length = f.size * f.size)
    (hrange : ∀ c ∈ f.cells, 0 ≤ c ∧ c.toNat < f.size * f.size / 2)
    (hcount : ∀ v : Nat, v < f.size * f.size / 2 →
      f.cells.countP (fun c => decide (c = (v : Int))) = 2) :
    f.evaluate_pairs.matched + f.evaluate_pairs.unmatched
      = f.size * f.size / 2 := by
  have hlen0 : (initialScan f).first_indices.length = f.size * f.size / 2 := by
    simp [initialScan, hwf]
  have hallpairs : ∀ p ∈ f.cells.enum, 0 ≤ p.2 ∧ p.2.toNat < f.size * f.size / 2 := by
    intro p hp
    apply hrange
    have hm : p.2 ∈ f.cells.enum.map Prod.snd := List.mem_map_of_mem _ hp
    rwa [List.enum_map_snd] at hm
  obtain ⟨hL, hSum, hGet⟩ :=
    scanFold_inv f.size f.cells.enum (initialScan f) (f.size * f.size / 2)
      hlen0 hallpairs
  have hcs0 : countSome (initialScan f).first_indices = 0 := by
    rw [countSome]
    apply List.countP_eq_zero.mpr
    intro a ha
    rw [List.eq_of_mem_replicate ha]
    simp
  have hAll : ∀ o ∈ (scanFold f.size (initialScan f) f.cells.enum).first_indices,
      (fun o2 : Option Nat => o2.isSome) o = true := by
    intro o ho
    obtain ⟨i, hi, hoe⟩ := List.getElem_of_mem ho
    have hihalf : i < f.size * f.size / 2 := hL ▸ hi
    have hany : f.cells.any (fun c => decide (c = (i : Int))) = true := by
      rw [List.any_eq_true]
      have hpos : 0 < f.cells.countP (fun c => decide (c = (i : Int))) := by
        rw [hcount i hihalf]
        omega
      obtain ⟨a, ha, hpa⟩ := List.countP_pos_iff.mp hpos
      exact ⟨a, ha, hpa⟩
    have henum : f.cells.enum.any (fun p => decide (p.2 = (i : Int))) = true :=
      (enum_any_snd (fun c => decide (c = (i : Int))) f.cells).trans hany
    have hinit : ((initialScan f).first_indices.getD i none).isSome = false := by
      show ((List.replicate (f.cells.length / 2) (none : Option Nat)).getD i none).isSome
          = false
      rw [getD_replicate_none]
      rfl
    have hgi := hGet i
    rw [hinit, henum] at hgi
    have hgd : (scanFold f.size (initialScan f) f.cells.enum).first_indices.getD i none
        = o := by
      rw [List.getD_eq_getElem _ _ hi, hoe]
    rw [hgd] at hgi
    simpa using hgi
  have hcsFinal :
      countSome (scanFold f.size (initialScan f) f.cells.enum).first_indices
        = f.size * f.size / 2 := by
    rw [countSome, List.countP_eq_length.mpr hAll, hL]
  have hLL : f.cells.length = 2 * (f.size * f.size / 2) := by
    rw [length_eq_sum_countP (f.size * f.size / 2) f.cells hrange]
    rw [Finset.sum_congr rfl (fun v hv => hcount v (Finset.mem_range.mp hv))]
    simp [Finset.sum_const, Finset.card_range, Nat.mul_comm]
  have hlenEnum : f.cells.enum.length = f.cells.length := List.enum_length
  rw [hcsFinal, hlenEnum] at hSum
  have hinit0 : (initialScan f).metrics.status.matched = 0 := rfl
  have hinit1 : (initialScan f).metrics.status.unmatched = 0 := rfl
  rw [hinit0, hinit1, hcs0] at hSum
  show (scanFold f.size (initialScan f) f.cells.enum).metrics.status.matched
      + (scanFold f.size (initialScan f) f.cells.enum).metrics.status.unmatched
    = f.size * f.size / 2
  omega

theorem evaluate_pairs_matched_add_unmatched_witness :
    ((Field.mk 2 [0,0,1,1]).cells.length
        = (Field.mk 2 [0,0,1,1]).size * (Field.mk 2 [0,0,1,1]).size ∧
      (∀ c ∈ (Field.mk 2 [0,0,1,1]).cells, 0 ≤ c ∧
        c.toNat < (Field.mk 2 [0,0,1,1]).size * (Field.mk 2 [0,0,1,1]).size / 2) ∧
      (∀ v : Nat, v < (Field.mk 2 [0,0,1,1]).size * (Field.mk 2 [0,0,1,1]).size / 2 →
        (Field.mk 2 [0,0,1,1]).cells.countP (fun c => decide (c = (v : Int))) = 2)) ∧
    (Field.mk 2 [0,0,1,1]).evaluate_pairs.matched
        + (Field.mk 2 [0,0,1,1]).evaluate_pairs.unmatched = 2 :=
  ⟨⟨by decide, by decide, by intro v hv; interval_cases v <;> decide⟩,
    evaluate_pairs_matched_add_unmatched (Field.mk 2 [0,0,1,1]) (by decide)
      (by decide) (by intro v hv; interval_cases v <;> decide)⟩


/-- The solver configuration fields referenced by
`BeamStackSearchSolver` in `solver/beam_stack_search.cpp` (move
generation and limits planning). -/
structure BeamStackSearchConfig where
  beam_width : Nat
  beam_width_cap : Nat
  max_depth : Nat
  max_nodes : Nat
  max_children_per_node : Nat
  adaptive_limits : Bool
  rotation_sizes : List Nat
deriving DecidableEq

/-- The `Candidate` record local to
`BeamStackSearchSolver::generate_operations`: an operation with its
prefix-sum impact. The C++ `std::size_t` impact is the 2-D prefix-sum
difference, which is represented exactly over `Int` here (its value is the
non-negative footprint sum, below `2⁶⁴`). -/
structure Candidate where
  op : Operation
  impact : Int
deriving DecidableEq

/-- One entry of the `(board_size + 1)²` prefix table built by
`generate_operations`, addressed as `(row, column)`: row 0 and column 0
stay at their zero initialisation, and
`P[y+1][x+1] = mask[y·N+x] + P[y][x+1] + P[y+1][x] − P[y][x]`. `prefixRow`
computes one row from the previous row `prev`. -/
def prefixRow (mask : List Nat) (N y : Nat) (prev : Nat → Nat) : Nat → Nat
  | 0 => 0
  | x + 1 =>
    mask.getD (y * N + x) 0 + prev (x + 1) + prefixRow mask N y prev x - prev x

/-- The full prefix table as a function `(row, column) ↦ entry`. -/
def prefixEntry (mask : List Nat) (N : Nat) : Nat → Nat → Nat
  | 0 => fun _ => 0
  | y + 1 => prefixRow mask N y (prefixEntry mask N y)

/-- The `area_sum` lambda of `generate_operations`:
`P[y1][x1] − P[y0][x1] − P[y1][x0] + P[y0][x0]`, computed in `std::size_t`
modulo-`2⁶⁴` arithmetic in C++; over `Int` the same expression needs no
wrap-around and `areaSum_eq_footprintSum` shows it equals the plain
footprint sum, which is what the C++ value is. -/
def areaSum (mask : List Nat) (N x0 y0 k : Nat) : Int :=
  (prefixEntry mask N (y0 + k) (x0 + k) : Int)
    - prefixEntry mask N y0 (x0 + k)
    - prefixEntry mask N (y0 + k) x0
    + prefixEntry mask N y0 x0

/-- The sum of the mask bytes over the `k×k` footprint at `(x0, y0)`. -/
def footprintSum (mask : List Nat) (N x0 y0 k : Nat) : Nat :=
  ∑ dy in Finset.range k, ∑ dx in Finset.range k,
    mask.getD ((y0 + dy) * N + (x0 + dx)) 0

theorem prefixEntry_eq (mask : List Nat) (N : Nat) :
    ∀ (y x : Nat), prefixEntry mask N y x
      = ∑ yy in Finset.range y, ∑ xx in Finset.range x, mask.getD (yy * N + xx) 0 := by
  intro y
  induction y with
  | zero =>
    intro x
    simp [prefixEntry]
  | succ y ihy =>
    intro x
    induction x with
    | zero => simp [prefixEntry, prefixRow]
    | succ x ihx =>
      have hrec : prefixEntry mask N (y + 1) (x + 1)
          = mask.getD (y * N + x) 0 + prefixEntry mask N y (x + 1)
            + prefixEntry mask N (y + 1) x - prefixEntry mask N y x := rfl
      rw [hrec, ihy (x + 1), ihy x, ihx]
      have h1 : (∑ yy in Finset.range (y + 1), ∑ xx in Finset.range x,
            mask.getD (yy * N + xx) 0)
          = (∑ yy in Finset.range y, ∑ xx in Finset.range x, mask.getD (yy * N + xx) 0)
            + ∑ xx in Finset.range x, mask.getD (y * N + xx) 0 :=
        Finset.sum_range_succ _ y
      have h2 : (∑ yy in Finset.range (y + 1), ∑ xx in Finset.range (x + 1),
            mask.getD (yy * N + xx) 0)
          = (∑ yy in Finset.range y, ∑ xx in Finset.range (x + 1),
              mask.getD (yy * N + xx) 0)
            + ∑ xx in Finset.range (x + 1), mask.getD (y * N + xx) 0 :=
        Finset.sum_range_succ _ y
      have h3 : (∑ xx in Finset.range (x + 1), mask.getD (y * N + xx) 0)
          = (∑ xx in Finset.range x, mask.getD (y * N + xx) 0)
            + mask.getD (y * N + x) 0 :=
        Finset.sum_range_succ _ x
      omega

theorem areaSum_eq_footprintSum (mask : List Nat) (N x0 y0 k : Nat) :
    areaSum mask N x0 y0 k = (footprintSum mask N x0 y0 k : Int) := by
  have hyk : ∀ X : Nat, (∑ yy in Finset.range (y0 + k), ∑ xx in Finset.range X,
        mask.getD (yy * N + xx) 0)
      = (∑ yy in Finset.range y0, ∑ xx in Finset.range X, mask.getD (yy * N + xx) 0)
        + ∑ dy in Finset.range k, ∑ xx in Finset.range X,
            mask.getD ((y0 + dy) * N + xx) 0 := by
    intro X
    exact Finset.sum_range_add
      (fun yy => ∑ xx in Finset.range X, mask.getD (yy * N + xx) 0) y0 k
  have hxk : ∀ yy : Nat, (∑ xx in Finset.range (x0 + k), mask.getD (yy * N + xx) 0)
      = (∑ xx in Finset.range x0, mask.getD (yy * N + xx) 0)
        + ∑ dx in Finset.range k, mask.getD (yy * N + (x0 + dx)) 0 :=
    fun yy => Finset.sum_range_add (fun xx => mask.getD (yy * N + xx) 0) x0 k
  have hsplit : (∑ dy in Finset.range k, ∑ xx in Finset.range (x0 + k),
        mask.getD ((y0 + dy) * N + xx) 0)
      = (∑ dy in Finset.range k, ∑ xx in Finset.range x0,
          mask.getD ((y0 + dy) * N + xx) 0) + footprintSum mask N x0 y0 k := by
    rw [footprintSum, ← Finset.sum_add_distrib]
    exact Finset.sum_congr rfl (fun dy _ => hxk (y0 + dy))
  rw [areaSum, prefixEntry_eq mask N (y0 + k) (x0 + k),
    prefixEntry_eq mask N y0 (x0 + k), prefixEntry_eq mask N (y0 + k) x0,
    prefixEntry_eq mask N y0 x0, hyk (x0 + k), hyk x0, hsplit]
  push_cast
  ring

/-- The `use_mask` flag of `generate_operations`: unmatched pairs exist and
the mask has exactly one byte per cell. -/
def use_mask_flag (field : Field) (metrics : PairMetrics) : Bool :=
  decide (0 < metrics.status.unmatched)
    && decide (metrics.unmatched_mask.length = field.cell_count)

/-- The `area_sum` lambda as called by the enumeration loop: without a
mask every op is treated as impactful (`1`). -/
def gen_area_sum (field : Field) (metrics : PairMetrics) (x0 y0 k : Nat) : Int :=
  if use_mask_flag field metrics = false then 1
  else areaSum metrics.unmatched_mask field.size x0 y0 k

/-- The candidate list accumulated by the enumeration loop of
`BeamStackSearchSolver::generate_operations`: for each configured rotation
size `k` with `2 ≤ k ≤ N`, every on-grid `(x, y, k)` (sizes outer, then
`y`, then `x`), skipping invalid ops, the immediately preceding op of the
history, and — when the mask is used — ops of zero impact. In the
non-mask mode the C++ code pushes the ops straight into the output list;
here both modes collect candidates and the output is read off by
`Candidate.op`, which yields the same list. -/
def generate_candidates (cfg : BeamStackSearchConfig) (field : Field)
    (history : List Operation) (metrics : PairMetrics) : List Candidate :=
  cfg.rotation_sizes.bind (fun k =>
    if k < 2 || field.size < k then []
    else (List.range (field.size - k + 1)).bind (fun y =>
      (List.range (field.size - k + 1)).bind (fun x =>
        let op := Operation.mk x y k
        if field.is_valid_operation op = false then []
        else if history.getLast? = some op then []
        else
          let impact := gen_area_sum field metrics x y k
          if use_mask_flag field metrics && decide (impact = 0) then []
          else [Candidate.mk op impact])))

/-- `BeamStackSearchSolver::generate_operations`: with the mask in use the
candidates are stably sorted by impact descending (`std::stable_sort` with
comparator `a.impact > b.impact`, modelled by the stable insertion sort
with the matching total preorder) before the ops are extracted. -/
def generate_operations (cfg : BeamStackSearchConfig) (field : Field)
    (history : List Operation) (metrics : PairMetrics) : List Operation :=
  if use_mask_flag field metrics then
    (List.insertionSort (fun a b => b.impact ≤ a.impact)
      (generate_candidates cfg field history metrics)).map Candidate.op
  else
    (generate_candidates cfg field history metrics).map Candidate.op

theorem mem_generate_candidates (cfg : BeamStackSearchConfig) (field : Field)
    (history : List Operation) (metrics : PairMetrics) (c : Candidate)
    (hc : c ∈ generate_candidates cfg field history metrics) :
    c.op.is_valid field.size = true ∧
    c.impact = gen_area_sum field metrics c.op.x c.op.y c.op.size ∧
    (use_mask_flag field metrics = true → c.impact ≠ 0) := by
  rw [generate_candidates] at hc
  rw [List.mem_bind] at hc
  obtain ⟨k, hk, hc⟩ := hc
  split at hc
  · simp at hc
  · rw [List.mem_bind] at hc
    obtain ⟨y, hy, hc⟩ := hc
    rw [List.mem_bind] at hc
    obtain ⟨x, hx, hc⟩ := hc
    simp only at hc
    split at hc
    · simp at hc
    · split at hc
      · simp at hc
      · split at hc
        · simp at hc
        · rename_i hvalid hlast himp
          rw [List.mem_singleton] at hc
          subst hc
          refine ⟨?_, rfl, ?_⟩
          · cases hb : Operation.is_valid (Operation.mk x y k) field.size
            · exact absurd hb hvalid
            · rfl
          · intro hmask hzero
            have hz2 : gen_area_sum field metrics x y k = 0 := hzero
            apply himp
            simp [hmask, hz2]

/-- Claim C10: every operation produced by the move generator satisfies the
validity predicate for the node's board size, so applying it with
`Field::apply` cannot reach the invalid-operation error branch. -/
theorem generate_operations_valid :
    ∀ (cfg : BeamStackSearchConfig) (f : Field) (history : List Operation)
      (metrics : PairMetrics) (op : Operation),
      op ∈ generate_operations cfg f history metrics →
      op.is_valid f.size = true ∧ ∃ g, f.apply op = Except.ok g := by
  intro cfg f history metrics op hmem
  have hcand : ∃ c, c ∈ generate_candidates cfg f history metrics ∧
      Candidate.op c = op := by
    rw [generate_operations] at hmem
    split at hmem
    · rw [List.mem_map] at hmem
      obtain ⟨c, hc, hco⟩ := hmem
      exact ⟨c, (List.mem_insertionSort _).mp hc, hco⟩
    · rw [List.mem_map] at hmem
      exact hmem
  obtain ⟨c, hc, hco⟩ := hcand
  obtain ⟨hvalid, _, _⟩ := mem_generate_candidates cfg f history metrics c hc
  subst hco
  exact ⟨hvalid, ⟨c.op |> fun o => f.rotateField o, Field.apply_ok f c.op hvalid⟩⟩

theorem generate_operations_valid_witness :
    ((Operation.mk 0 0 2) ∈ generate_operations
        (BeamStackSearchConfig.mk 0 0 0 0 0 false [2]) (Field.mk 2 [0,1,1,0]) []
        (PairMetrics.mk (PairStatus.mk 0 2) 4 2 [1,1,1,1])) ∧
    ((Operation.mk 0 0 2).is_valid (Field.mk 2 [0,1,1,0]).size = true ∧
      ∃ g, (Field.mk 2 [0,1,1,0]).apply (Operation.mk 0 0 2) = Except.ok g) :=
  ⟨by decide,
    generate_operations_valid (BeamStackSearchConfig.mk 0 0 0 0 0 false [2])
      (Field.mk 2 [0,1,1,0]) [] (PairMetrics.mk (PairStatus.mk 0 2) 4 2 [1,1,1,1])
      (Operation.mk 0 0 2) (by decide)⟩

/-- Claim C4: when the node has `unmatched > 0` and a mask of exactly one
byte per cell, every operation returned by the move generator has strictly
positive impact (mask sum over its `k×k` footprint) and the returned list
is sorted non-increasing by impact. -/
theorem generate_operations_impact_pos_sorted (cfg : BeamStackSearchConfig)
    (f : Field) (history : List Operation) (metrics : PairMetrics)
    (hu : 0 < metrics.status.unmatched)
    (hm : metrics.unmatched_mask.length = f.cell_count) :
    (∀ op ∈ generate_operations cfg f history metrics,
      0 < footprintSum metrics.unmatched_mask f.size op.x op.y op.size) ∧
    List.Pairwise (fun a b =>
      footprintSum metrics.unmatched_mask f.size b.x b.y b.size
        ≤ footprintSum metrics.unmatched_mask f.size a.x a.y a.size)
      (generate_operations cfg f history metrics) := by
  have humask : use_mask_flag f metrics = true := by
    simp [use_mask_flag, hu, hm]
  have himpact : ∀ c ∈ generate_candidates cfg f history metrics,
      c.impact = (footprintSum metrics.unmatched_mask f.size c.op.x c.op.y c.op.size : Int)
        ∧ 0 < footprintSum metrics.unmatched_mask f.size c.op.x c.op.y c.op.size := by
    intro c hc
    obtain ⟨_, himp, hnz⟩ := mem_generate_candidates cfg f history metrics c hc
    rw [gen_area_sum, if_neg (by simp [humask]),
      areaSum_eq_footprintSum] at himp
    refine ⟨himp, ?_⟩
    have hnz2 := hnz humask
    rw [himp] at hnz2
    omega
  rw [generate_operations, if_pos humask]
  haveI htotal : IsTotal Candidate (fun a b => b.impact ≤ a.impact) :=
    ⟨fun a b => le_total b.impact a.impact⟩
  haveI htrans : IsTrans Candidate (fun a b => b.impact ≤ a.impact) :=
    ⟨fun a b c h1 h2 => le_trans h2 h1⟩
  constructor
  · intro op hop
    rw [List.mem_map] at hop
    obtain ⟨c, hc, hco⟩ := hop
    have hcr := (List.mem_insertionSort _).mp hc
    obtain ⟨_, hpos⟩ := himpact c hcr
    rw [← hco]
    exact hpos
  · rw [List.pairwise_map]
    have hsorted := List.sorted_insertionSort (fun a b : Candidate => b.impact ≤ a.impact)
      (generate_candidates cfg f history metrics)
    rw [List.Sorted] at hsorted
    apply List.Pairwise.imp_of_mem ?_ hsorted
    intro a b ha hb hr
    obtain ⟨hia, _⟩ := himpact a ((List.mem_insertionSort _).mp ha)
    obtain ⟨hib, _⟩ := himpact b ((List.mem_insertionSort _).mp hb)
    rw [hia, hib] at hr
    exact_mod_cast hr

theorem generate_operations_impact_pos_sorted_witness :
    (0 < (PairMetrics.mk (PairStatus.mk 0 2) 4 2 [1,1,1,1]).status.unmatched ∧
      (PairMetrics.mk (PairStatus.mk 0 2) 4 2 [1,1,1,1]).unmatched_mask.length
        = (Field.mk 2 [0,1,1,0]).cell_count) ∧
    ((∀ op ∈ generate_operations (BeamStackSearchConfig.mk 0 0 0 0 0 false [2])
        (Field.mk 2 [0,1,1,0]) [] (PairMetrics.mk (PairStatus.mk 0 2) 4 2 [1,1,1,1]),
      0 < footprintSum [1,1,1,1] (Field.mk 2 [0,1,1,0]).size op.x op.y op.size) ∧
    List.Pairwise (fun a b =>
      footprintSum [1,1,1,1] (Field.mk 2 [0,1,1,0]).size b.x b.y b.size
        ≤ footprintSum [1,1,1,1] (Field.mk 2 [0,1,1,0]).size a.x a.y a.size)
      (generate_operations (BeamStackSearchConfig.mk 0 0 0 0 0 false [2])
        (Field.mk 2 [0,1,1,0]) [] (PairMetrics.mk (PairStatus.mk 0 2) 4 2 [1,1,1,1]))) :=
  ⟨⟨by decide, by decide⟩,
    generate_operations_impact_pos_sorted (BeamStackSearchConfig.mk 0 0 0 0 0 false [2])
      (Field.mk 2 [0,1,1,0]) [] (PairMetrics.mk (PairStatus.mk 0 2) 4 2 [1,1,1,1])
      (by decide) (by decide)⟩


/-- `BeamStackSearchSolver::SearchLimits`: the four per-iteration caps
produced by the limits planner. -/
structure SearchLimits where
  beam_width : Nat
  max_depth : Nat
  max_nodes : Nat
  max_children_per_node : Nat
deriving DecidableEq

/-- The `scale_up` lambda of `BeamStackSearchSolver::derive_limits`: `0`
stays `0`; otherwise `ceil(base · factor)` clamped to `SIZE_MAX` from
above and to `base` from below. The double arithmetic is carried out over
`ℚ` with an exact ceiling; the final `static_cast<std::size_t>` of a value
that is at least `base` and at most `SIZE_MAX` is the `Int.toNat` below. -/
def scale_up (base : Nat) (factor : ℚ) : Nat :=
  if base = 0 then 0
  else
    let scaled : Int := Int.ceil ((base : ℚ) * factor)
    let clamped : Int := min scaled ((2 : Int) ^ 64 - 1)
    (max (base : Int) clamped).toNat

/-- `BeamStackSearchSolver::derive_limits`: the four scale factors
(`pow(normalized, 1.35)` and friends, where
`normalized = max(1, board_size / 8)`) are floating-point powers; they are
abstracted here as arbitrary rational parameters `sizeS`, `depthS`,
`nodeS`, `childS`, which the code replaces by exactly `1.0` when
`adaptive_limits` is off — so a run with `adaptive_limits = false` is
modelled exactly by passing `1`.  The body mirrors the source: scale each
base, clamp `beam_width` to `beam_width_cap` when the cap is positive,
force `beam_width ≥ 1`, keep `max_children_per_node = 0` as "unlimited",
and floor depth/nodes/children for small adaptive boards. -/
def derive_limits (cfg : BeamStackSearchConfig) (board_size : Nat)
    (sizeS depthS nodeS childS : ℚ) : SearchLimits :=
  let size_scale := if cfg.adaptive_limits then sizeS else 1
  let depth_scale := if cfg.adaptive_limits then depthS else 1
  let node_scale := if cfg.adaptive_limits then nodeS else 1
  let child_scale := if cfg.adaptive_limits then childS else 1
  let bw0 := scale_up cfg.beam_width size_scale
  let bw1 := if 0 < cfg.beam_width_cap then min bw0 cfg.beam_width_cap else bw0
  let bw2 := if bw1 = 0 then 1 else bw1
  let md := scale_up cfg.max_depth depth_scale
  let mn := scale_up cfg.max_nodes node_scale
  let mc := if 0 < cfg.max_children_per_node then
      scale_up cfg.max_children_per_node child_scale
    else 0
  if cfg.adaptive_limits = true ∧ board_size ≤ 8 then
    SearchLimits.mk bw2 (max md 48) (max mn 280000) (max mc 64)
  else
    SearchLimits.mk bw2 md mn mc

theorem scale_up_ge (base : Nat) (factor : ℚ) : base ≤ scale_up base factor := by
  rw [scale_up]
  split
  · omega
  · have h1 : (base : Int)
        ≤ max (base : Int) (min (Int.ceil ((base : ℚ) * factor)) ((2 : Int) ^ 64 - 1)) :=
      le_max_left _ _
    have h2 := Int.toNat_le_toNat h1
    simpa using h2

/-- Claim C2 counterexample: with base `beam_width = 10` and
`beam_width_cap = 5` (adaptive limits off, so every scale factor is
exactly `1.0`), the derived `beam_width` is `5 < 10`, below its base
value. -/
theorem derive_limits_beam_width_cap_counterexample :
    (derive_limits (BeamStackSearchConfig.mk 10 5 0 0 0 false []) 8 1 1 1 1).beam_width
      < (BeamStackSearchConfig.mk 10 5 0 0 0 false []).beam_width := by
  have h : scale_up 10 (1 : ℚ) = 10 := by
    rw [scale_up]
    norm_num
    decide
  simp [derive_limits, h]

/-- Claim C2 (amended): `max_depth`, `max_nodes` and
`max_children_per_node` derived by the limits planner are always at least
their base values, and so is `beam_width` whenever `beam_width_cap` is `0`
(no cap) or at least the base `beam_width`; a positive cap below the base
clamps `beam_width` under its base value. This holds for every scale
factor, in particular for the floating-point powers the code uses. -/
theorem derive_limits_ge_base_amended (cfg : BeamStackSearchConfig)
    (board_size : Nat) (sizeS depthS nodeS childS : ℚ) :
    cfg.max_depth ≤ (derive_limits cfg board_size sizeS depthS nodeS childS).max_depth ∧
    cfg.max_nodes ≤ (derive_limits cfg board_size sizeS depthS nodeS childS).max_nodes ∧
    cfg.max_children_per_node
      ≤ (derive_limits cfg board_size sizeS depthS nodeS childS).max_children_per_node ∧
    ((cfg.beam_width_cap = 0 ∨ cfg.beam_width ≤ cfg.beam_width_cap) →
      cfg.beam_width ≤ (derive_limits cfg board_size sizeS depthS nodeS childS).beam_width) := by
  have h1a := scale_up_ge cfg.beam_width sizeS
  have h1b := scale_up_ge cfg.beam_width 1
  have h2a := scale_up_ge cfg.max_depth depthS
  have h2b := scale_up_ge cfg.max_depth 1
  have h3a := scale_up_ge cfg.max_nodes nodeS
  have h3b := scale_up_ge cfg.max_nodes 1
  have h4a := scale_up_ge cfg.max_children_per_node childS
  have h4b := scale_up_ge cfg.max_children_per_node 1
  simp only [derive_limits]
  split_ifs <;> dsimp only <;>
    exact ⟨by omega, by omega, by omega,
      fun hcap => by rcases hcap with hcap | hcap <;> omega⟩

theorem derive_limits_ge_base_amended_witness :
    (BeamStackSearchConfig.mk 3 4 7 9 11 true [2]).max_depth
      ≤ (derive_limits (BeamStackSearchConfig.mk 3 4 7 9 11 true [2]) 8 1 1 1 1).max_depth ∧
    (BeamStackSearchConfig.mk 3 4 7 9 11 true [2]).max_nodes
      ≤ (derive_limits (BeamStackSearchConfig.mk 3 4 7 9 11 true [2]) 8 1 1 1 1).max_nodes ∧
    (BeamStackSearchConfig.mk 3 4 7 9 11 true [2]).max_children_per_node
      ≤ (derive_limits (BeamStackSearchConfig.mk 3 4 7 9 11 true [2]) 8 1 1 1
          1).max_children_per_node ∧
    (((BeamStackSearchConfig.mk 3 4 7 9 11 true [2]).beam_width_cap = 0 ∨
        (BeamStackSearchConfig.mk 3 4 7 9 11 true [2]).beam_width
          ≤ (BeamStackSearchConfig.mk 3 4 7 9 11 true [2]).beam_width_cap) →
      (BeamStackSearchConfig.mk 3 4 7 9 11 true [2]).beam_width
        ≤ (derive_limits (BeamStackSearchConfig.mk 3 4 7 9 11 true [2]) 8 1 1 1
            1).beam_width) :=
  derive_limits_ge_base_amended (BeamStackSearchConfig.mk 3 4 7 9 11 true [2]) 8 1 1 1 1

end Proc36
